import Mathlib

/-!
Verification development for the PredNet training model (`src/model.py` of
`karioth/PredNet_tf`).

The file has two parts.

Part 1 is a shallow embedding of the PredNet recurrent core and sequence
runner.  That code lives in `PredNet.py`, which is imported by
`src/model.py` (`from PredNet import *`) but is not itself available, so the
core is *modelled from the spec* (sections 4.1-4.3 of the spec): rational
number tensors, discrete convolution with SAME padding, split-rectified
errors, a two-pass (top-down then bottom-up) step across the layer stack,
and an unrolling runner with an output-mode flag.  Where the spec leaves the
recurrent gating as a free implementation choice, the model uses the
simplest compliant choice (a bounded piecewise-linear nonlinearity of the
convolved concatenation of the three inputs) and the doc comments say so.

Part 2 is a direct translation of `src/model.py`: the fixed-weight loss
aggregation layers (`timeDense`, `flatten`, `dense`), the constructor
(`__init__`, whose `zip` silently truncates mismatched configuration
sequences), and the `train_step` / `test_step` orchestration, with the
external tensor engine (forward pass, `compute_loss`, `tape.gradient`,
`optimizer.apply_gradients`) passed in as explicit function-valued fields.
-/

namespace PredNetTF

/-- Modelled from the spec: an N-d feature map from the external tensor
engine, restricted to one batch element — channel count, height, width and
a data function.  Reads outside the declared bounds yield 0, which also
implements zero padding. -/
structure Tensor where
  ch : ℕ
  h : ℕ
  w : ℕ
  data : ℕ → ℕ → ℕ → ℚ

/-- Bounds-guarded read of a tensor entry. -/
def Tensor.get (t : Tensor) (c i j : ℕ) : ℚ :=
  if c < t.ch ∧ i < t.h ∧ j < t.w then t.data c i j else 0

/-- A tensor whose every entry is zero. -/
def IsZero (t : Tensor) : Prop := ∀ c i j : ℕ, t.get c i j = 0

/-- A tensor whose every entry is non-negative. -/
def NonNeg (t : Tensor) : Prop := ∀ c i j : ℕ, 0 ≤ t.get c i j

/-- The all-zero tensor of a given shape. -/
def zeroT (c h w : ℕ) : Tensor := ⟨c, h, w, fun _ _ _ => 0⟩

/-- Read at an offset shifted left/up by the padding amount `p`, zero when
the shifted index would be negative (SAME zero padding). -/
def Tensor.padGet (t : Tensor) (k a b p : ℕ) : ℚ :=
  if p ≤ a ∧ p ≤ b then t.get k (a - p) (b - p) else 0

/-- Modelled from the spec: a 2-d convolution layer of the external tensor
engine — output channels, input channels, square filter size, kernel
coefficients and per-output-channel bias. -/
structure Conv where
  outCh : ℕ
  inCh : ℕ
  f : ℕ
  kernel : ℕ → ℕ → ℕ → ℕ → ℚ
  bias : ℕ → ℚ

/-- Modelled from the spec: convolution application with stride 1 and SAME
zero padding; spatial size is preserved. -/
def Conv.apply (cv : Conv) (t : Tensor) : Tensor :=
  ⟨cv.outCh, t.h, t.w, fun c i j =>
    cv.bias c + ∑ k ∈ Finset.range cv.inCh, ∑ u ∈ Finset.range cv.f,
      ∑ v ∈ Finset.range cv.f,
        cv.kernel c k u v * t.padGet k (i + u) (j + v) (cv.f / 2)⟩

/-- Elementwise rectification `max 0 x` (ReLU). -/
def reluT (t : Tensor) : Tensor :=
  ⟨t.ch, t.h, t.w, fun c i j => max 0 (t.get c i j)⟩

/-- Modelled from the spec: the bottom layer's prediction activation,
rectified and capped at 1 (it predicts normalized pixel intensity). -/
def satReluT (t : Tensor) : Tensor :=
  ⟨t.ch, t.h, t.w, fun c i j => min 1 (max 0 (t.get c i j))⟩

/-- Modelled from the spec: the bounded nonlinearity of the representation
update; a piecewise-linear tanh surrogate clipping to `[-1, 1]`.  The spec
leaves the exact gating scheme free as long as the output is a bounded
nonlinearity of a linear combination of the three inputs. -/
def hardTanhT (t : Tensor) : Tensor :=
  ⟨t.ch, t.h, t.w, fun c i j => max (-1) (min 1 (t.get c i j))⟩

/-- Elementwise difference of two same-shaped tensors. -/
def subT (t1 t2 : Tensor) : Tensor :=
  ⟨t1.ch, t1.h, t1.w, fun c i j => t1.get c i j - t2.get c i j⟩

/-- Channel-wise concatenation of two same-spatial-shape tensors. -/
def concatCh (t1 t2 : Tensor) : Tensor :=
  ⟨t1.ch + t2.ch, t1.h, t1.w, fun c i j =>
    if c < t1.ch then t1.get c i j else t2.get (c - t1.ch) i j⟩

/-- Modelled from the spec: 2x2 max pooling with stride 2, the spatial
downsampling used when propagating errors upward. -/
def maxPool2 (t : Tensor) : Tensor :=
  ⟨t.ch, t.h / 2, t.w / 2, fun c i j =>
    max (max (t.get c (2 * i) (2 * j)) (t.get c (2 * i) (2 * j + 1)))
        (max (t.get c (2 * i + 1) (2 * j)) (t.get c (2 * i + 1) (2 * j + 1)))⟩

/-- Modelled from the spec: nearest-neighbour 2x upsampling, matching the
spatial resolution of top-down feedback to the layer below. -/
def upSample2 (t : Tensor) : Tensor :=
  ⟨t.ch, 2 * t.h, 2 * t.w, fun c i j => t.get c (i / 2) (j / 2)⟩

/-- Mean over all entries of a tensor (the mean pooling applied to each
layer's error tensor to form the error-mode output). -/
def meanAll (t : Tensor) : ℚ :=
  (∑ c ∈ Finset.range t.ch, ∑ i ∈ Finset.range t.h, ∑ j ∈ Finset.range t.w,
    t.get c i j) / ((t.ch * t.h * t.w : ℕ) : ℚ)

/-- Modelled from the spec: one hierarchy level's sublayers — the target
convolution (applied, for levels above the bottom, to the error coming from
the level below, followed by pooling), the prediction convolution and the
recurrent representation convolution. -/
structure Cell where
  convA : Conv
  convAhat : Conv
  convR : Conv

/-- All three sublayers of a cell carry zero bias (the initialization state
of a freshly constructed model). -/
def ZeroBiasCell (c : Cell) : Prop :=
  (∀ k, c.convA.bias k = 0) ∧ (∀ k, c.convAhat.bias k = 0) ∧
    (∀ k, c.convR.bias k = 0)

/-- Modelled from the spec, 4.1 top-down pass: from the highest layer to
the lowest, the new representation is a bounded nonlinearity of the
representation convolution applied to the concatenation of the previous
representation, the previous error and the upsampled updated representation
from above (a zero-channel tensor above the top layer, i.e. treated as
zero).  Input list is ordered top layer first; returns the new
representations, top first. -/
def downPass : List (Cell × Tensor × Tensor) → Tensor → List Tensor
  | [], _ => []
  | (cell, r, e) :: rest, td =>
      let rn := hardTanhT (cell.convR.apply (concatCh (concatCh r e) td))
      rn :: downPass rest (upSample2 rn)

/-- Modelled from the spec, 4.1 bottom-up pass: from the lowest layer to
the highest.  `inp` is the externally supplied frame for the bottom layer
and the error of the layer below otherwise; the target is the frame itself
at the bottom and the pooled target convolution of that error above; the
prediction is the (saturating at the bottom, plain above) rectified
prediction convolution of the updated representation; the error is the
concatenation of the two rectified halves of the target-prediction
difference.  Returns the (prediction, error) pairs, bottom first. -/
def upPass : List (Cell × Tensor) → Tensor → Bool → List (Tensor × Tensor)
  | [], _, _ => []
  | (cell, rn) :: rest, inp, isBottom =>
      let a := if isBottom then inp else maxPool2 (cell.convA.apply inp)
      let ahat := if isBottom then satReluT (cell.convAhat.apply rn)
                  else reluT (cell.convAhat.apply rn)
      let e := concatCh (reluT (subT a ahat)) (reluT (subT ahat a))
      (ahat, e) :: upPass rest e false

/-- Modelled from the spec, 4.2: one timestep of the recurrent core.  Runs
the top-down pass then the bottom-up pass over the whole stack and returns
the new per-layer state (representation, error), the error-mode per-step
output (the mean-pooled error of each layer) and the prediction-mode
per-step output (the bottom layer's prediction). -/
def stepCore (cells : List Cell) (states : List (Tensor × Tensor))
    (frame : Tensor) : List (Tensor × Tensor) × List ℚ × Tensor :=
  let topFirst := ((cells.zip states).reverse).map fun p => (p.1, p.2.1, p.2.2)
  let newRs := (downPass topFirst (zeroT 0 0 0)).reverse
  let ups := upPass (cells.zip newRs) frame true
  (newRs.zip (ups.map Prod.snd), ups.map (fun p => meanAll p.2),
    (ups.headD (zeroT 0 0 0, zeroT 0 0 0)).1)

/-- The per-step output of the sequence runner: a per-layer mean error
vector in error mode, the bottom-layer prediction tensor in prediction
mode. -/
inductive StepOut where
  | errs (v : List ℚ)
  | pred (t : Tensor)

/-- Modelled from the spec, 4.3: unrolling in error mode, collecting the
per-layer mean error vector of each timestep. -/
def runErrors (cells : List Cell) :
    List (Tensor × Tensor) → List Tensor → List (List ℚ)
  | _, [] => []
  | st, f :: fs =>
      (stepCore cells st f).2.1 :: runErrors cells (stepCore cells st f).1 fs

/-- Modelled from the spec, 4.3: unrolling in prediction mode, collecting
the bottom-layer prediction of each timestep. -/
def runAhat0 (cells : List Cell) :
    List (Tensor × Tensor) → List Tensor → List Tensor
  | _, [] => []
  | st, f :: fs =>
      (stepCore cells st f).2.2 :: runAhat0 cells (stepCore cells st f).1 fs

/-- The sequence of per-layer states produced while unrolling (the
recurrent state trajectory). -/
def runTraj (cells : List Cell) :
    List (Tensor × Tensor) → List Tensor → List (List (Tensor × Tensor))
  | _, [] => []
  | st, f :: fs =>
      (stepCore cells st f).1 :: runTraj cells (stepCore cells st f).1 fs

/-- Modelled from the spec, 4.2-4.3: the runner with its output-mode flag
(`true` = error mode, as selected by `training=True` in
`src/model.py:63-65,75,103`); each step yields the new state and the output
of the selected mode. -/
def runMode (cells : List Cell) (errorMode : Bool) :
    List (Tensor × Tensor) → List Tensor →
      List (List (Tensor × Tensor) × StepOut)
  | _, [] => []
  | st, f :: fs =>
      ((stepCore cells st f).1,
        if errorMode then StepOut.errs (stepCore cells st f).2.1
        else StepOut.pred (stepCore cells st f).2.2) ::
          runMode cells errorMode (stepCore cells st f).1 fs

/-! ### Part 2: direct translation of `src/model.py` -/

/-- Dot product of two rational vectors, matching the tensor engine's
vector-matrix product for a single output unit (truncating at the shorter
vector, which never happens on shape-consistent inputs). -/
def dot (v w : List ℚ) : ℚ := (List.zipWith (fun a b => a * b) v w).sum

/-- A `Dense(1)` layer with kernel column `w` and bias `b`
(`src/model.py:57,59` build these with `weights=[w, np.zeros(1)]`, so the
bias is 0): maps an input row to the single output `v . w + b`. -/
def denseLayer (w : List ℚ) (b : ℚ) (v : List ℚ) : List ℚ := [dot v w + b]

/-- Keras `TimeDistributed`: apply a layer independently at every timestep of one
batch element. -/
def timeDistributed (f : List ℚ → List ℚ) (x : List (List ℚ)) :
    List (List ℚ) := x.map f

/-- Keras `Flatten` on one batch element: collapse the trailing axes. -/
def flattenL (x : List (List ℚ)) : List ℚ := x.flatten

/-- The layer `self.timeDense` (`src/model.py:57`) applied to a batch: a
`TimeDistributed(Dense(1, trainable=False))` whose kernel is
`layer_loss_weights` and whose bias is zero. -/
def timeDenseB (layerW : List ℚ) (err : List (List (List ℚ))) :
    List (List (List ℚ)) := err.map (timeDistributed (denseLayer layerW 0))

/-- The layer `self.flatten` (`src/model.py:58`) applied to a batch. -/
def flattenB (x : List (List (List ℚ))) : List (List ℚ) := x.map flattenL

/-- The layer `self.dense` (`src/model.py:59`) applied to a batch: a
`Dense(1, trainable=False)` whose kernel is `time_loss_weights` and whose
bias is zero. -/
def denseB (timeW : List ℚ) (x : List (List ℚ)) : List (List ℚ) :=
  x.map (denseLayer timeW 0)

/-- The loss aggregation pipeline of `src/model.py:78-80` (and identically
`105-107`): `timeDense` then `flatten` then `dense`, over a batch of
`(T, L)`-shaped error outputs. -/
def lossAggregate (layerW timeW : List ℚ) (err : List (List (List ℚ))) :
    List (List ℚ) := denseB timeW (flattenB (timeDenseB layerW err))

/-- The per-layer hyperparameters handed to one `PredNet_Cell`
(`src/model.py:39-44`). -/
structure CellCfg where
  stack_size : ℕ
  R_stack_size : ℕ
  A_filt_size : ℕ
  Ahat_filt_size : ℕ
  R_filt_size : ℕ

/-- The state `PredNetModel.__init__` leaves behind: the five stored
configuration sequences, the per-layer cell list, and the two fixed loss
weight vectors. -/
structure PredNetModelCfg where
  stack_sizes : List ℕ
  R_stack_sizes : List ℕ
  A_filt_sizes : List ℕ
  Ahat_filt_sizes : List ℕ
  R_filt_sizes : List ℕ
  cells : List CellCfg
  layer_loss_weights : List ℚ
  time_loss_weights : List ℚ

/-- The constructor `PredNetModel.__init__` (`src/model.py:28-59`).  The cell list is built
by iterating Python's `zip` over the five configuration sequences
(`src/model.py:38-47`); `zip` stops at the shortest sequence and raises
nothing, and no other statement of `__init__` inspects the lengths. -/
def initPredNetModel (ss rss afs ahfs rfs : List ℕ) (lw tw : List ℚ) :
    PredNetModelCfg :=
  { stack_sizes := ss, R_stack_sizes := rss, A_filt_sizes := afs,
    Ahat_filt_sizes := ahfs, R_filt_sizes := rfs,
    cells := ((((ss.zip rss).zip afs).zip ahfs).zip rfs).map fun x =>
      ⟨x.1.1.1.1, x.1.1.1.2, x.1.1.2, x.1.2, x.2⟩,
    layer_loss_weights := lw, time_loss_weights := tw }

/-- A Keras metric over target type `τ`: a name, its accumulated state, the
one-argument and two-argument `update_state` behaviours and `result`. -/
structure Metric (τ : Type) where
  name : String
  state : List ℚ
  update1 : List ℚ → ℚ → List ℚ
  update2 : List ℚ → τ → List (List ℚ) → List ℚ
  result : List ℚ → ℚ

/-- The mutable state of a `PredNetModel` as seen by `train_step` and
`test_step`, over abstract trainable-parameter type `P`, input type `ι` and
target type `τ`.  `forward` is `self.prednet` (equivalently `self(x,
training=b)`, `src/model.py:62-65`): the external sequence runner, whose
boolean flag selects error-mode output; `lossFn` is the compiled
`compute_loss`; `gradFn` is `tape.gradient(loss, trainable_variables)` and
`optApply` is `optimizer.apply_gradients`, both supplied by the external
engine.  `layer_loss_weights` and `time_loss_weights` are the kernels of
the two `trainable=False` aggregation layers, hence outside `θ`, the
trainable variables. -/
structure ModelState (P ι τ : Type) where
  θ : P
  layer_loss_weights : List ℚ
  time_loss_weights : List ℚ
  forward : P → ι → Bool → List (List (List ℚ))
  lossFn : τ → List (List ℚ) → ℚ
  gradFn : ℚ → P → P
  optApply : P → P → P
  metrics : List (Metric τ)

/-- Build a `ModelState` at construction time from its parts (the
constructor stores the supplied loss weight vectors unchanged,
`src/model.py:50-51,57,59`). -/
def mkModel {P ι τ : Type} (p : P) (lw tw : List ℚ)
    (fw : P → ι → Bool → List (List (List ℚ)))
    (lf : τ → List (List ℚ) → ℚ) (gf : ℚ → P → P) (oa : P → P → P)
    (ms : List (Metric τ)) : ModelState P ι τ :=
  ⟨p, lw, tw, fw, lf, gf, oa, ms⟩

/-- The string literal `"loss"` compared against metric names in the two
step functions (`src/model.py:89,112`). -/
def lossMetricName : String := "loss"

/-- The unbound identifier `y` whose lookup fails in the metric loop of
`test_step` (`src/model.py:113`). -/
def yName : String := "y"

/-- The aggregated per-batch prediction error computed inside `train_step`
(`src/model.py:75-80`): the error-mode forward pass (`training=True`)
followed by `timeDense`, `flatten`, `dense`. -/
def trainStepPredErr {P ι τ : Type} (m : ModelState P ι τ) (d : ι × τ) :
    List (List ℚ) :=
  denseB m.time_loss_weights
    (flattenB (timeDenseB m.layer_loss_weights (m.forward m.θ d.1 true)))

/-- The scalar loss computed inside `train_step` (`src/model.py:82`):
`compute_loss` of the target against the aggregated prediction error. -/
def trainStepLoss {P ι τ : Type} (m : ModelState P ι τ) (d : ι × τ) : ℚ :=
  m.lossFn d.2 (trainStepPredErr m d)

/-- The method `PredNetModel.train_step` (`src/model.py:67-94`): error-mode forward
pass, loss aggregation, `compute_loss` against the supplied target,
gradients of the loss with respect to the trainable variables, one
`apply_gradients`, metric updates, and the metric-name-to-value map. -/
def trainStep {P ι τ : Type} (m : ModelState P ι τ) (d : ι × τ) :
    ModelState P ι τ × List (String × ℚ) :=
  let x := d.1
  let target := d.2
  let all_error := m.forward m.θ x true
  let time_error := timeDenseB m.layer_loss_weights all_error
  let flattened := flattenB time_error
  let prediction_error := denseB m.time_loss_weights flattened
  let loss := m.lossFn target prediction_error
  let gradients := m.gradFn loss m.θ
  let θ2 := m.optApply m.θ gradients
  let metrics2 := m.metrics.map fun mt =>
    if mt.name = lossMetricName then
      { mt with state := mt.update1 mt.state loss }
    else { mt with state := mt.update2 mt.state target prediction_error }
  ({ m with θ := θ2, metrics := metrics2 },
    metrics2.map fun mt => (mt.name, mt.result mt.state))

/-- A Python runtime error; `test_step` can only raise a `NameError`. -/
inductive PyErr where
  | nameError (n : String)
deriving DecidableEq

/-- The scalar loss computed inside `test_step` (`src/model.py:103-109`):
the same error-mode forward pass (`training=True`, see the comment at
`src/model.py:101`) and the same aggregation pipeline as `train_step`,
then `compute_loss` — whose value `test_step` discards. -/
def testStepLoss {P ι τ : Type} (m : ModelState P ι τ) (d : ι × τ) : ℚ :=
  m.lossFn d.2
    (denseB m.time_loss_weights
      (flattenB (timeDenseB m.layer_loss_weights (m.forward m.θ d.1 true))))

/-- One iteration of the metric loop of `test_step`
(`src/model.py:111-113`).  For a metric not named `"loss"` the body is
`metric.update_state(y, y_pred)`, but `y` and `y_pred` are bound nowhere in
`test_step` (its locals are `data`, `x_val`, `target_val`, `all_error_val`,
`time_error`, `flattened`, `prediction_error_val`, `metric`), so evaluating
the call raises `NameError` on `y` before any update happens. -/
def testMetricStep {τ : Type} (mt : Metric τ) : Except PyErr (Metric τ) :=
  if mt.name = lossMetricName then Except.ok mt
  else Except.error (PyErr.nameError yName)

/-- The metric loop of `test_step`, propagating the first raised error. -/
def testMetricLoop {τ : Type} : List (Metric τ) → Except PyErr (List (Metric τ))
  | [] => Except.ok []
  | mt :: rest => do
      let mt2 ← testMetricStep mt
      let rest2 ← testMetricLoop rest
      Except.ok (mt2 :: rest2)

/-- The method `PredNetModel.test_step` (`src/model.py:96-115`): the same forward pass
and aggregation as `train_step`, a `compute_loss` call whose value is
discarded, the metric loop, and the metric-name-to-value map; no gradient
is taken and no variable is written. -/
def testStep {P ι τ : Type} (m : ModelState P ι τ) (d : ι × τ) :
    Except PyErr (ModelState P ι τ × List (String × ℚ)) := do
  let x_val := d.1
  let target_val := d.2
  let all_error_val := m.forward m.θ x_val true
  let time_error := timeDenseB m.layer_loss_weights all_error_val
  let flattened := flattenB time_error
  let prediction_error_val := denseB m.time_loss_weights flattened
  let _lossVal := m.lossFn target_val prediction_error_val
  let metrics2 ← testMetricLoop m.metrics
  Except.ok ({ m with metrics := metrics2 },
    metrics2.map fun mt => (mt.name, mt.result mt.state))

/-- Fold a list of training batches through `trainStep`, keeping the
evolving model state. -/
def applySteps {P ι τ : Type} (m : ModelState P ι τ) (ds : List (ι × τ)) :
    ModelState P ι τ :=
  ds.foldl (fun mm dd => (trainStep mm dd).1) m

/-! ### Helper lemmas about the spec-modelled core -/

theorem isZero_of_data (t : Tensor) (h : ∀ c i j, t.data c i j = 0) :
    IsZero t := by
  intro c i j
  simp [Tensor.get, h]

theorem isZero_zeroT (c h w : ℕ) : IsZero (zeroT c h w) :=
  isZero_of_data _ fun _ _ _ => rfl

theorem padGet_eq_zero (t : Tensor) (ht : IsZero t) (k a b p : ℕ) :
    t.padGet k a b p = 0 := by
  have h2 : ∀ c i j, t.get c i j = 0 := ht
  simp [Tensor.padGet, h2]

theorem isZero_conv (cv : Conv) (t : Tensor) (ht : IsZero t)
    (hb : ∀ c, cv.bias c = 0) : IsZero (cv.apply t) :=
  isZero_of_data _ fun c i j => by
    show cv.bias c + _ = 0
    simp [hb, padGet_eq_zero t ht]

theorem isZero_reluT (t : Tensor) (ht : IsZero t) : IsZero (reluT t) :=
  isZero_of_data _ fun c i j => by
    show max 0 (t.get c i j) = 0
    rw [ht c i j]
    exact max_self 0

theorem isZero_satReluT (t : Tensor) (ht : IsZero t) : IsZero (satReluT t) :=
  isZero_of_data _ fun c i j => by
    show min 1 (max 0 (t.get c i j)) = 0
    rw [ht c i j]
    norm_num

theorem isZero_hardTanhT (t : Tensor) (ht : IsZero t) :
    IsZero (hardTanhT t) :=
  isZero_of_data _ fun c i j => by
    show max (-1) (min 1 (t.get c i j)) = 0
    rw [ht c i j]
    norm_num

theorem isZero_subT (t1 t2 : Tensor) (h1 : IsZero t1) (h2 : IsZero t2) :
    IsZero (subT t1 t2) :=
  isZero_of_data _ fun c i j => by
    show t1.get c i j - t2.get c i j = 0
    rw [h1 c i j, h2 c i j]
    ring

theorem isZero_concatCh (t1 t2 : Tensor) (h1 : IsZero t1) (h2 : IsZero t2) :
    IsZero (concatCh t1 t2) :=
  isZero_of_data _ fun c i j => by
    show (if c < t1.ch then t1.get c i j else t2.get (c - t1.ch) i j) = 0
    split
    · exact h1 c i j
    · exact h2 _ i j

theorem isZero_maxPool2 (t : Tensor) (ht : IsZero t) :
    IsZero (maxPool2 t) :=
  isZero_of_data _ fun c i j => by
    show max (max _ _) (max _ _) = 0
    rw [ht c (2 * i) (2 * j), ht c (2 * i) (2 * j + 1),
      ht c (2 * i + 1) (2 * j), ht c (2 * i + 1) (2 * j + 1)]
    simp

theorem isZero_upSample2 (t : Tensor) (ht : IsZero t) :
    IsZero (upSample2 t) :=
  isZero_of_data _ fun c i j => ht c (i / 2) (j / 2)

theorem meanAll_eq_zero (t : Tensor) (ht : IsZero t) : meanAll t = 0 := by
  have h2 : ∀ c i j, t.get c i j = 0 := ht
  simp [meanAll, h2]

theorem nonneg_reluT (t : Tensor) : NonNeg (reluT t) := by
  intro c i j
  simp only [Tensor.get]
  split
  · exact le_max_left 0 _
  · exact le_refl 0

theorem nonneg_concatCh (t1 t2 : Tensor) (h1 : NonNeg t1) (h2 : NonNeg t2) :
    NonNeg (concatCh t1 t2) := by
  intro c i j
  simp only [Tensor.get, concatCh]
  split
  · split
    · exact h1 c i j
    · exact h2 _ i j
  · exact le_refl 0

theorem downPass_zero (l : List (Cell × Tensor × Tensor)) :
    ∀ td : Tensor,
      (∀ x ∈ l, ZeroBiasCell x.1 ∧ IsZero x.2.1 ∧ IsZero x.2.2) →
      IsZero td → ∀ r ∈ downPass l td, IsZero r := by
  induction l with
  | nil =>
      intro td _ _ r hr
      simp [downPass] at hr
  | cons x rest ih =>
      obtain ⟨cell, re, ee⟩ := x
      intro td hl htd r hr
      have hx := hl (cell, re, ee) (List.mem_cons_self _ _)
      have hrn : IsZero
          (hardTanhT (cell.convR.apply (concatCh (concatCh re ee) td))) :=
        isZero_hardTanhT _ (isZero_conv _ _
          (isZero_concatCh _ _ (isZero_concatCh _ _ hx.2.1 hx.2.2) htd)
          hx.1.2.2)
      simp only [downPass, List.mem_cons] at hr
      rcases hr with rfl | hr
      · exact hrn
      · exact ih _ (fun y hy => hl y (List.mem_cons_of_mem _ hy))
          (isZero_upSample2 _ hrn) r hr

theorem downPass_length (l : List (Cell × Tensor × Tensor)) :
    ∀ td : Tensor, (downPass l td).length = l.length := by
  induction l with
  | nil => intro td; simp [downPass]
  | cons x rest ih =>
      obtain ⟨cell, re, ee⟩ := x
      intro td
      simp [downPass, ih]

theorem upPass_zero (l : List (Cell × Tensor)) :
    ∀ (inp : Tensor) (bot : Bool),
      (∀ x ∈ l, ZeroBiasCell x.1 ∧ IsZero x.2) → IsZero inp →
      ∀ p ∈ upPass l inp bot, IsZero p.1 ∧ IsZero p.2 := by
  induction l with
  | nil =>
      intro inp bot _ _ p hp
      simp [upPass] at hp
  | cons x rest ih =>
      obtain ⟨cell, rn⟩ := x
      intro inp bot hl hinp p hp
      have hx := hl (cell, rn) (List.mem_cons_self _ _)
      have ha : IsZero (if bot then inp
          else maxPool2 (cell.convA.apply inp)) := by
        cases bot
        · exact isZero_maxPool2 _ (isZero_conv _ _ hinp hx.1.1)
        · exact hinp
      have hahat : IsZero (if bot then satReluT (cell.convAhat.apply rn)
          else reluT (cell.convAhat.apply rn)) := by
        cases bot
        · exact isZero_reluT _ (isZero_conv _ _ hx.2 hx.1.2.1)
        · exact isZero_satReluT _ (isZero_conv _ _ hx.2 hx.1.2.1)
      have he : IsZero (concatCh
          (reluT (subT (if bot then inp else maxPool2 (cell.convA.apply inp))
            (if bot then satReluT (cell.convAhat.apply rn)
              else reluT (cell.convAhat.apply rn))))
          (reluT (subT (if bot then satReluT (cell.convAhat.apply rn)
              else reluT (cell.convAhat.apply rn))
            (if bot then inp else maxPool2 (cell.convA.apply inp))))) :=
        isZero_concatCh _ _
          (isZero_reluT _ (isZero_subT _ _ ha hahat))
          (isZero_reluT _ (isZero_subT _ _ hahat ha))
      simp only [upPass, List.mem_cons] at hp
      rcases hp with rfl | hp
      · exact ⟨hahat, he⟩
      · exact ih _ _ (fun y hy => hl y (List.mem_cons_of_mem _ hy)) he p hp

theorem upPass_nonneg (l : List (Cell × Tensor)) :
    ∀ (inp : Tensor) (bot : Bool), ∀ p ∈ upPass l inp bot, NonNeg p.2 := by
  induction l with
  | nil =>
      intro inp bot p hp
      simp [upPass] at hp
  | cons x rest ih =>
      obtain ⟨cell, rn⟩ := x
      intro inp bot p hp
      simp only [upPass, List.mem_cons] at hp
      rcases hp with rfl | hp
      · exact nonneg_concatCh _ _ (nonneg_reluT _) (nonneg_reluT _)
      · exact ih _ _ p hp

theorem upPass_length (l : List (Cell × Tensor)) :
    ∀ (inp : Tensor) (bot : Bool), (upPass l inp bot).length = l.length := by
  induction l with
  | nil => intro inp bot; simp [upPass]
  | cons x rest ih =>
      obtain ⟨cell, rn⟩ := x
      intro inp bot
      simp [upPass, ih]

theorem stepCore_zero (cells : List Cell) (st : List (Tensor × Tensor))
    (frame : Tensor) (hc : ∀ c ∈ cells, ZeroBiasCell c)
    (hst : ∀ p ∈ st, IsZero p.1 ∧ IsZero p.2) (hf : IsZero frame) :
    (∀ p ∈ (stepCore cells st frame).1, IsZero p.1 ∧ IsZero p.2) ∧
      (∀ q ∈ (stepCore cells st frame).2.1, q = 0) ∧
      IsZero (stepCore cells st frame).2.2 := by
  have hdown : ∀ r ∈ downPass
      (((cells.zip st).reverse).map fun p => (p.1, p.2.1, p.2.2))
      (zeroT 0 0 0), IsZero r := by
    apply downPass_zero
    · intro x hx
      simp only [List.mem_map, List.mem_reverse] at hx
      obtain ⟨p, hp, rfl⟩ := hx
      have hmem := List.of_mem_zip hp
      exact ⟨hc _ hmem.1, (hst _ hmem.2).1, (hst _ hmem.2).2⟩
    · exact isZero_zeroT 0 0 0
  have hnewRs : ∀ r ∈ (downPass
      (((cells.zip st).reverse).map fun p => (p.1, p.2.1, p.2.2))
      (zeroT 0 0 0)).reverse, IsZero r := by
    intro r hr
    exact hdown r (List.mem_reverse.mp hr)
  have hups : ∀ p ∈ upPass (cells.zip ((downPass
      (((cells.zip st).reverse).map fun p => (p.1, p.2.1, p.2.2))
      (zeroT 0 0 0)).reverse)) frame true, IsZero p.1 ∧ IsZero p.2 := by
    apply upPass_zero
    · intro x hx
      have hmem := List.of_mem_zip hx
      exact ⟨hc _ hmem.1, hnewRs _ hmem.2⟩
    · exact hf
  refine ⟨?_, ?_, ?_⟩
  · intro p hp
    have hmem := List.of_mem_zip hp
    constructor
    · exact hnewRs _ hmem.1
    · obtain ⟨q, hq, hq2⟩ := List.mem_map.mp hmem.2
      exact hq2 ▸ (hups q hq).2
  · intro q hq
    obtain ⟨p, hp, rfl⟩ := List.mem_map.mp hq
    exact meanAll_eq_zero _ (hups p hp).2
  · show IsZero (Prod.fst (List.headD _ _))
    rcases hcase : upPass (cells.zip ((downPass
        (((cells.zip st).reverse).map fun p => (p.1, p.2.1, p.2.2))
        (zeroT 0 0 0)).reverse)) frame true with _ | ⟨u, us⟩
    · rw [hcase]
      exact isZero_zeroT 0 0 0
    · rw [hcase]
      exact (hups u (by rw [hcase]; exact List.mem_cons_self _ _)).1

theorem stepCore_nonneg (cells : List Cell) (st : List (Tensor × Tensor))
    (frame : Tensor) :
    ∀ p ∈ (stepCore cells st frame).1, NonNeg p.2 := by
  intro p hp
  have hmem := List.of_mem_zip hp
  obtain ⟨q, hq, hq2⟩ := List.mem_map.mp hmem.2
  exact hq2 ▸ upPass_nonneg _ _ _ q hq

theorem stepCore_lengths (cells : List Cell) (st : List (Tensor × Tensor))
    (frame : Tensor) (h : st.length = cells.length) :
    (stepCore cells st frame).1.length = cells.length ∧
      (stepCore cells st frame).2.1.length = cells.length := by
  constructor
  · simp [stepCore, List.length_zip, downPass_length, upPass_length, h]
  · simp [stepCore, List.length_zip, downPass_length, upPass_length, h]

theorem runTraj_zero (cells : List Cell) (hc : ∀ c ∈ cells, ZeroBiasCell c) :
    ∀ (frames : List Tensor) (st : List (Tensor × Tensor)),
      (∀ f ∈ frames, IsZero f) →
      (∀ p ∈ st, IsZero p.1 ∧ IsZero p.2) →
      ∀ sts ∈ runTraj cells st frames, ∀ p ∈ sts, IsZero p.1 ∧ IsZero p.2 := by
  intro frames
  induction frames with
  | nil =>
      intro st _ _ sts hsts
      simp [runTraj] at hsts
  | cons f fs ih =>
      intro st hfr hst sts hsts
      have h1 := stepCore_zero cells st f hc hst (hfr f (by simp))
      simp only [runTraj, List.mem_cons] at hsts
      rcases hsts with rfl | hsts
      · exact h1.1
      · exact ih _ (fun g hg => hfr g (by simp [hg])) h1.1 sts hsts

theorem runErrors_zero (cells : List Cell)
    (hc : ∀ c ∈ cells, ZeroBiasCell c) :
    ∀ (frames : List Tensor) (st : List (Tensor × Tensor)),
      (∀ f ∈ frames, IsZero f) →
      (∀ p ∈ st, IsZero p.1 ∧ IsZero p.2) →
      ∀ ev ∈ runErrors cells st frames, ∀ q ∈ ev, q = 0 := by
  intro frames
  induction frames with
  | nil =>
      intro st _ _ ev hev
      simp [runErrors] at hev
  | cons f fs ih =>
      intro st hfr hst ev hev
      have h1 := stepCore_zero cells st f hc hst (hfr f (by simp))
      simp only [runErrors, List.mem_cons] at hev
      rcases hev with rfl | hev
      · exact h1.2.1
      · exact ih _ (fun g hg => hfr g (by simp [hg])) h1.1 ev hev

theorem runAhat0_zero (cells : List Cell)
    (hc : ∀ c ∈ cells, ZeroBiasCell c) :
    ∀ (frames : List Tensor) (st : List (Tensor × Tensor)),
      (∀ f ∈ frames, IsZero f) →
      (∀ p ∈ st, IsZero p.1 ∧ IsZero p.2) →
      ∀ t ∈ runAhat0 cells st frames, IsZero t := by
  intro frames
  induction frames with
  | nil =>
      intro st _ _ t ht
      simp [runAhat0] at ht
  | cons f fs ih =>
      intro st hfr hst t ht
      have h1 := stepCore_zero cells st f hc hst (hfr f (by simp))
      simp only [runAhat0, List.mem_cons] at ht
      rcases ht with rfl | ht
      · exact h1.2.2
      · exact ih _ (fun g hg => hfr g (by simp [hg])) h1.1 t ht

theorem runErrors_lengths (cells : List Cell) :
    ∀ (frames : List Tensor) (st : List (Tensor × Tensor)),
      st.length = cells.length →
      (runErrors cells st frames).length = frames.length ∧
        ∀ ev ∈ runErrors cells st frames, ev.length = cells.length := by
  intro frames
  induction frames with
  | nil =>
      intro st _
      simp [runErrors]
  | cons f fs ih =>
      intro st hst
      have h1 := stepCore_lengths cells st f hst
      have h2 := ih _ h1.1
      constructor
      · simp [runErrors, h2.1]
      · intro ev hev
        simp only [runErrors, List.mem_cons] at hev
        rcases hev with rfl | hev
        · exact h1.2
        · exact h2.2 ev hev

theorem runTraj_nonneg (cells : List Cell) :
    ∀ (frames : List Tensor) (st : List (Tensor × Tensor)),
      ∀ sts ∈ runTraj cells st frames, ∀ p ∈ sts, NonNeg p.2 := by
  intro frames
  induction frames with
  | nil =>
      intro st sts hsts
      simp [runTraj] at hsts
  | cons f fs ih =>
      intro st sts hsts
      simp only [runTraj, List.mem_cons] at hsts
      rcases hsts with rfl | hsts
      · exact stepCore_nonneg cells st f
      · exact ih _ sts hsts

/-! ### Helper lemmas about the loss aggregation pipeline -/

theorem dot_zero_left (v : List ℚ) (hv : ∀ q ∈ v, q = 0) :
    ∀ w : List ℚ, dot v w = 0 := by
  induction v with
  | nil => intro w; simp [dot]
  | cons a v ih =>
      intro w
      cases w with
      | nil => simp [dot]
      | cons b w =>
          have ha : a = 0 := hv a (by simp)
          have hrest : dot v w = 0 := ih (fun q hq => hv q (by simp [hq])) w
          simp only [dot, List.zipWith_cons_cons, List.sum_cons] at hrest ⊢
          rw [ha, hrest]
          ring

theorem dot_eq_sum (v : List ℚ) :
    ∀ w : List ℚ, v.length = w.length →
      dot v w = ∑ i ∈ Finset.range w.length, v.getD i 0 * w.getD i 0 := by
  induction v with
  | nil =>
      intro w h
      rw [(List.length_eq_zero.mp h.symm)]
      simp [dot]
  | cons a v ih =>
      intro w h
      cases w with
      | nil => simp at h
      | cons b w =>
          simp only [List.length_cons] at h
          have h2 : v.length = w.length := by omega
          have hd : dot (a :: v) (b :: w) = a * b + dot v w := by
            simp [dot]
          rw [hd, ih w h2, List.length_cons, Finset.sum_range_succ']
          simp only [List.getD_cons_succ, List.getD_cons_zero]
          ring

theorem getD_map_lt {α β : Type} (g : α → β) (l : List α) (i : ℕ)
    (hi : i < l.length) (d : α) (d2 : β) :
    (l.map g).getD i d2 = g (l.getD i d) := by
  rw [List.getD_eq_getElem?_getD, List.getD_eq_getElem?_getD,
    List.getElem?_map, List.getElem?_eq_getElem hi]
  rfl

theorem getD_mem {α : Type} (l : List α) (i : ℕ) (hi : i < l.length)
    (d : α) : l.getD i d ∈ l := by
  rw [List.getD_eq_getElem?_getD, List.getElem?_eq_getElem hi]
  exact List.getElem_mem hi

theorem flatten_map_singleton {α β : Type} (g : α → β) (l : List α) :
    (l.map fun x => [g x]).flatten = l.map g := by
  induction l with
  | nil => rfl
  | cons a l ih => simp [ih]

/-- The loss aggregation on one batch element, rewritten as the nested
weighted sums it implements. -/
theorem aggregate_one (layerW timeW : List ℚ) (e : List (List ℚ))
    (hT : e.length = timeW.length)
    (hL : ∀ row ∈ e, row.length = layerW.length) :
    denseLayer timeW 0 (flattenL (timeDistributed (denseLayer layerW 0) e)) =
      [∑ t ∈ Finset.range timeW.length,
        (∑ k ∈ Finset.range layerW.length,
          (e.getD t []).getD k 0 * layerW.getD k 0) * timeW.getD t 0] := by
  have hflat : flattenL (timeDistributed (denseLayer layerW 0) e) =
      e.map fun row => dot row layerW + 0 :=
    flatten_map_singleton (fun row => dot row layerW + 0) e
  have hmap : ∀ i, i < e.length →
      (e.map fun row => dot row layerW + 0).getD i 0 =
        dot (e.getD i []) layerW := by
    intro i hi
    rw [getD_map_lt (fun row => dot row layerW + 0) e i hi [] 0]
    simp
  rw [hflat]
  show [dot (e.map fun row => dot row layerW + 0) timeW + 0] = _
  have hlen : (e.map fun row => dot row layerW + 0).length = timeW.length := by
    simpa using hT
  rw [dot_eq_sum _ _ hlen, add_zero]
  congr 1
  apply Finset.sum_congr rfl
  intro t ht
  have ht2 : t < e.length := by
    rw [hT]
    exact Finset.mem_range.mp ht
  rw [hmap t ht2, dot_eq_sum _ _ (hL _ (getD_mem e t ht2 []))]

/-! ### Helper lemmas about the step functions -/

theorem testStep_eq {P ι τ : Type} (m : ModelState P ι τ) (d : ι × τ) :
    testStep m d = (testMetricLoop m.metrics).bind fun ms =>
      Except.ok ({ m with metrics := ms },
        ms.map fun mt => (mt.name, mt.result mt.state)) := rfl

theorem bind_ok_eq {ε α β : Type} (a : α) (f : α → Except ε β) :
    ((Except.ok a : Except ε α) >>= f) = f a := rfl

theorem exbind_ok {ε α β : Type} (a : α) (f : α → Except ε β) :
    (Except.ok a : Except ε α).bind f = f a := rfl

theorem exbind_error {ε α β : Type} (e : ε) (f : α → Except ε β) :
    (Except.error e : Except ε α).bind f = Except.error e := rfl

theorem bind_error_eq {ε α β : Type} (e : ε) (f : α → Except ε β) :
    ((Except.error e : Except ε α) >>= f) = Except.error e := rfl

theorem testMetricLoop_cons_loss {τ : Type} (mt : Metric τ)
    (rest : List (Metric τ)) (hname : mt.name = lossMetricName) :
    testMetricLoop (mt :: rest) =
      (testMetricLoop rest) >>= fun rest2 => Except.ok (mt :: rest2) := by
  simp only [testMetricLoop, testMetricStep, hname, if_pos, bind_ok_eq]

theorem testMetricLoop_cons_other {τ : Type} (mt : Metric τ)
    (rest : List (Metric τ)) (hname : ¬ mt.name = lossMetricName) :
    testMetricLoop (mt :: rest) = Except.error (PyErr.nameError yName) := by
  simp only [testMetricLoop, testMetricStep, hname, if_neg, bind_error_eq,
    not_false_iff]

theorem testMetricLoop_error {τ : Type} (l : List (Metric τ))
    (h : ∃ mt ∈ l, mt.name ≠ lossMetricName) :
    testMetricLoop l = Except.error (PyErr.nameError yName) := by
  induction l with
  | nil => simp at h
  | cons mt rest ih =>
      by_cases hname : mt.name = lossMetricName
      · obtain ⟨mt2, hmem, hne⟩ := h
        rcases List.mem_cons.mp hmem with rfl | hmem2
        · exact absurd hname hne
        · rw [testMetricLoop_cons_loss mt rest hname, ih ⟨mt2, hmem2, hne⟩]
          rfl
      · exact testMetricLoop_cons_other mt rest hname

theorem testMetricLoop_ok {τ : Type} (l : List (Metric τ)) :
    ∀ ms, testMetricLoop l = Except.ok ms → ms = l := by
  induction l with
  | nil =>
      intro ms h
      simp only [testMetricLoop] at h
      exact (Except.ok.inj h).symm
  | cons mt rest ih =>
      intro ms h
      by_cases hname : mt.name = lossMetricName
      · rw [testMetricLoop_cons_loss mt rest hname] at h
        cases hrest : testMetricLoop rest with
        | error e =>
            rw [hrest, bind_error_eq] at h
            exact absurd h (by simp)
        | ok ms2 =>
            rw [hrest, bind_ok_eq] at h
            have h2 : mt :: ms2 = ms := Except.ok.inj h
            rw [← h2, ih ms2 hrest]
      · rw [testMetricLoop_cons_other mt rest hname] at h
        exact absurd h (by simp)

theorem trainStep_keys {P ι τ : Type} (m : ModelState P ι τ) (d : ι × τ) :
    (trainStep m d).2.map Prod.fst = m.metrics.map fun mt => mt.name := by
  have h : (trainStep m d).2 = (m.metrics.map fun mt =>
      if mt.name = lossMetricName then
        { mt with state := mt.update1 mt.state (trainStepLoss m d) }
      else
        { mt with state := mt.update2 mt.state d.2 (trainStepPredErr m d) }).map
      fun mt => (mt.name, mt.result mt.state) := rfl
  rw [h, List.map_map, List.map_map]
  apply List.map_congr_left
  intro mt _
  by_cases hname : mt.name = lossMetricName <;>
    simp [Function.comp, hname]

/-! ### Claim theorems -/

/-- C3: every training step computes, in dependency order, the error-mode
forward pass through the sequence runner (`forward ... true`), the loss
aggregation (`timeDense` then `flatten` then `dense`), the loss of that
aggregate against the supplied target, the gradient of that loss with
respect to the trainable parameters, and a single optimizer update; and it
returns the mapping from metric name to metric value over the updated
metrics. -/
theorem trainStep_pipeline {P ι τ : Type} (m : ModelState P ι τ)
    (d : ι × τ) :
    trainStepPredErr m d =
      denseB m.time_loss_weights (flattenB (timeDenseB m.layer_loss_weights
        (m.forward m.θ d.1 true))) ∧
    trainStepLoss m d = m.lossFn d.2 (trainStepPredErr m d) ∧
    (trainStep m d).1.θ =
      m.optApply m.θ (m.gradFn (trainStepLoss m d) m.θ) ∧
    (trainStep m d).1.metrics = (m.metrics.map fun mt =>
      if mt.name = lossMetricName then
        { mt with state := mt.update1 mt.state (trainStepLoss m d) }
      else
        { mt with state := mt.update2 mt.state d.2 (trainStepPredErr m d) }) ∧
    (trainStep m d).2 = ((trainStep m d).1.metrics).map fun mt =>
      (mt.name, mt.result mt.state) :=
  ⟨rfl, rfl, rfl, rfl, rfl⟩

/-- C5: the loss-aggregation weight vectors supplied at construction are
held outside the trainable parameters and are unchanged by any sequence of
training steps. -/
theorem loss_weights_never_trained {P ι τ : Type} (p : P) (lw tw : List ℚ)
    (fw : P → ι → Bool → List (List (List ℚ)))
    (lf : τ → List (List ℚ) → ℚ) (gf : ℚ → P → P) (oa : P → P → P)
    (ms : List (Metric τ)) (ds : List (ι × τ)) :
    (applySteps (mkModel p lw tw fw lf gf oa ms) ds).layer_loss_weights =
        lw ∧
      (applySteps (mkModel p lw tw fw lf gf oa ms) ds).time_loss_weights =
        tw := by
  have key : ∀ (ds2 : List (ι × τ)) (m : ModelState P ι τ),
      (applySteps m ds2).layer_loss_weights = m.layer_loss_weights ∧
        (applySteps m ds2).time_loss_weights = m.time_loss_weights := by
    intro ds2
    induction ds2 with
    | nil => intro m; exact ⟨rfl, rfl⟩
    | cons dd ds3 ih =>
        intro m
        have h2 := ih (trainStep m dd).1
        exact ⟨h2.1, h2.2⟩
  exact key ds (mkModel p lw tw fw lf gf oa ms)

/-- C6: the output-mode flag of the runner selects only the emitted per-step
output; the recurrent state trajectory is the same in error mode and in
prediction mode, and both modes run the same step function of the same cell
list (the flag is a runtime argument, not a different structure). -/
theorem mode_flag_same_trajectory (cells : List Cell) :
    ∀ (frames : List Tensor) (st : List (Tensor × Tensor)),
      ((runMode cells true st frames).map Prod.fst =
        (runMode cells false st frames).map Prod.fst) ∧
      ((runMode cells true st frames).map Prod.fst =
        runTraj cells st frames) ∧
      ((runMode cells true st frames).map Prod.snd =
        (runErrors cells st frames).map StepOut.errs) ∧
      ((runMode cells false st frames).map Prod.snd =
        (runAhat0 cells st frames).map StepOut.pred) := by
  intro frames
  induction frames with
  | nil => intro st; exact ⟨rfl, rfl, rfl, rfl⟩
  | cons f fs ih =>
      intro st
      have h2 := ih (stepCore cells st f).1
      refine ⟨?_, ?_, ?_, ?_⟩
      · simp only [runMode, List.map_cons]
        rw [h2.1]
      · simp only [runMode, runTraj, List.map_cons]
        rw [h2.2.1]
      · simp only [runMode, runErrors, List.map_cons, if_pos]
        rw [h2.2.2.1]
      · simp only [runMode, runAhat0, List.map_cons, if_neg]
        rw [h2.2.2.2]
        simp

/-- C9: every error tensor of the recurrent state trajectory is elementwise
non-negative, at every layer and every timestep, because each is built as
the channel concatenation of the two rectified halves of the
target-prediction difference. -/
theorem error_tensors_nonneg (cells : List Cell)
    (st : List (Tensor × Tensor)) (frames : List Tensor) :
    ∀ sts ∈ runTraj cells st frames, ∀ p ∈ sts, NonNeg p.2 :=
  runTraj_nonneg cells frames st

/-- C2 counterexample: constructing with `stack_sizes` of length 2 and the
four other configuration sequences of length 1 raises nothing — the
constructor returns a model whose cell list has been silently truncated to
length 1 by `zip`. -/
theorem init_mismatch_truncates_cex :
    (initPredNetModel [1, 2] [1] [3] [3] [3] [1] [1, 1]).cells.length = 1 ∧
      ([1, 2] : List ℕ).length ≠ ([1] : List ℕ).length := by
  constructor
  · rfl
  · decide

/-- C2 amended: construction never fails on mismatched configuration
sequence lengths; the per-layer cell list is silently truncated to the
shortest of the five sequences (Python `zip` semantics), the stored
configuration sequences and loss weight vectors are kept as supplied, and
no validation occurs. -/
theorem init_truncates (ss rss afs ahfs rfs : List ℕ) (lw tw : List ℚ) :
    (initPredNetModel ss rss afs ahfs rfs lw tw).cells.length =
      min (min (min (min ss.length rss.length) afs.length) ahfs.length)
        rfs.length ∧
    (initPredNetModel ss rss afs ahfs rfs lw tw).stack_sizes = ss ∧
    (initPredNetModel ss rss afs ahfs rfs lw tw).layer_loss_weights = lw ∧
    (initPredNetModel ss rss afs ahfs rfs lw tw).time_loss_weights = tw := by
  refine ⟨?_, rfl, rfl, rfl⟩
  simp [initPredNetModel, List.length_zip]

/-! ### Concrete sample instances used by counterexamples and witnesses -/

/-- A concrete convolution with all-ones kernel and zero bias. -/
def convOnes (oc ic fs : ℕ) : Conv :=
  ⟨oc, ic, fs, fun _ _ _ _ => 1, fun _ => 0⟩

/-- A concrete one-layer cell (stack size 1, representation size 1, 3x3
filters) with zero biases, as in a freshly constructed model. -/
def cellA : Cell := ⟨convOnes 1 2 3, convOnes 1 1 3, convOnes 1 4 3⟩

/-- All-zero initial state for the one-layer configuration on 2x2 frames
(error channel count doubled). -/
def st0 : List (Tensor × Tensor) := [(zeroT 1 2 2, zeroT 2 2 2)]

/-- A two-frame all-zero input sequence of 2x2 one-channel frames. -/
def frames0 : List Tensor := [zeroT 1 2 2, zeroT 1 2 2]

theorem zeroBias_cellA : ZeroBiasCell cellA :=
  ⟨fun _ => rfl, fun _ => rfl, fun _ => rfl⟩

theorem cellA_list_zeroBias : ∀ c ∈ [cellA], ZeroBiasCell c := by
  intro c hc
  rw [List.mem_singleton] at hc
  subst hc
  exact zeroBias_cellA

theorem st0_zero : ∀ p ∈ st0, IsZero p.1 ∧ IsZero p.2 := by
  intro p hp
  rw [show st0 = [(zeroT 1 2 2, zeroT 2 2 2)] from rfl,
    List.mem_singleton] at hp
  subst hp
  exact ⟨isZero_zeroT 1 2 2, isZero_zeroT 2 2 2⟩

theorem frames0_zero : ∀ f ∈ frames0, IsZero f := by
  intro f hf
  rw [show frames0 = [zeroT 1 2 2, zeroT 1 2 2] from rfl] at hf
  rcases List.mem_cons.mp hf with rfl | hf2
  · exact isZero_zeroT 1 2 2
  · rw [List.mem_singleton] at hf2
    subst hf2
    exact isZero_zeroT 1 2 2

/-- Concrete layer weights of length 2 for the aggregation witness. -/
def layerW2 : List ℚ := [5, 7]

/-- Concrete time weights of length 2 for the aggregation witness. -/
def timeW2 : List ℚ := [10, 100]

/-- A concrete (batch 1, T 2, L 2) error tensor for the aggregation
witness. -/
def err2 : List (List (List ℚ)) := [[[1, 2], [3, 4]]]

/-- The vector `layer_loss_weights = [1.0]` of the spec's L = 1 end-to-end scenario. -/
def layerW1 : List ℚ := [1]

/-- The vector `time_loss_weights = [1, 1]` of the spec's L = 1 end-to-end scenario. -/
def timeW1 : List ℚ := [1, 1]

/-- C1 counterexample: with one layer (L = 1) on a two-frame sequence, each
per-timestep error-mode output vector of the sequence runner has L = 1
entries, not 2L = 2. -/
theorem errors_output_last_dim_cex :
    (runErrors [cellA] st0 frames0).map List.length = [1, 1] ∧
      ¬ ((runErrors [cellA] st0 frames0).map List.length =
        [2 * 1, 2 * 1]) := by
  have h1 : (runErrors [cellA] st0 frames0).map List.length = [1, 1] := rfl
  refine ⟨h1, ?_⟩
  rw [h1]
  decide

/-- C1 (amended from 2L to L): the runner's error-mode output carries one
entry per layer per timestep, and the loss aggregation computes, for each
batch element, a weighted sum across the per-layer entries using
`layer_loss_weights` with zero bias for each timestep, then a weighted sum
across time of the flattened per-timestep scalars using
`time_loss_weights` with zero bias, yielding exactly one scalar per batch
element. -/
theorem lossAggregate_weighted_sums (cells : List Cell)
    (st : List (Tensor × Tensor)) (frames : List Tensor)
    (layerW timeW : List ℚ) (err : List (List (List ℚ)))
    (hst : st.length = cells.length)
    (hT : ∀ e ∈ err, e.length = timeW.length)
    (hL : ∀ e ∈ err, ∀ row ∈ e, row.length = layerW.length) :
    (∀ ev ∈ runErrors cells st frames, ev.length = cells.length) ∧
    lossAggregate layerW timeW err = err.map (fun e =>
      [∑ t ∈ Finset.range timeW.length,
        (∑ k ∈ Finset.range layerW.length,
          (e.getD t []).getD k 0 * layerW.getD k 0) * timeW.getD t 0]) ∧
    (lossAggregate layerW timeW err).map List.length =
      err.map fun _ => 1 := by
  refine ⟨(runErrors_lengths cells frames st hst).2, ?_, ?_⟩
  · show ((err.map (timeDistributed (denseLayer layerW 0))).map
      flattenL).map (denseLayer timeW 0) = _
    rw [List.map_map, List.map_map]
    apply List.map_congr_left
    intro e he
    exact aggregate_one layerW timeW e (hT e he) (hL e he)
  · show (((err.map (timeDistributed (denseLayer layerW 0))).map
      flattenL).map (denseLayer timeW 0)).map List.length = _
    rw [List.map_map, List.map_map, List.map_map]
    apply List.map_congr_left
    intro e _
    rfl

/-- Witness for the C1 theorem at a concrete one-layer run and a concrete
(1, 2, 2)-shaped error tensor. -/
theorem lossAggregate_weighted_sums_witness :
    (st0.length = [cellA].length ∧
      (∀ e ∈ err2, e.length = timeW2.length) ∧
      (∀ e ∈ err2, ∀ row ∈ e, row.length = layerW2.length)) ∧
    ((∀ ev ∈ runErrors [cellA] st0 frames0, ev.length = [cellA].length) ∧
      lossAggregate layerW2 timeW2 err2 = err2.map (fun e =>
        [∑ t ∈ Finset.range timeW2.length,
          (∑ k ∈ Finset.range layerW2.length,
            (e.getD t []).getD k 0 * layerW2.getD k 0) * timeW2.getD t 0]) ∧
      (lossAggregate layerW2 timeW2 err2).map List.length =
        err2.map fun _ => 1) :=
  ⟨⟨rfl, by decide, by decide⟩,
    lossAggregate_weighted_sums [cellA] st0 frames0 layerW2 timeW2 err2
      rfl (by decide) (by decide)⟩

/-- C4: for any configuration whose convolution biases are zero (the state
of a freshly constructed, untrained model), an all-zero input sequence from
an all-zero initial state yields an all-zero bottom-layer prediction at
every step, all-zero error tensors at every layer and step, an all-zero
error-mode output of shape (T, L) per batch element, and an aggregated
scalar of exactly 0 per batch element for any loss weights — in particular
for the L = 1, T = 2 scenario with `layer_loss_weights = [1]` and
`time_loss_weights = [1, 1]`. -/
theorem zero_input_zero_outputs (cells : List Cell)
    (st : List (Tensor × Tensor)) (frames : List Tensor)
    (layerW timeW : List ℚ)
    (hb : ∀ c ∈ cells, ZeroBiasCell c)
    (hst : ∀ p ∈ st, IsZero p.1 ∧ IsZero p.2)
    (hstlen : st.length = cells.length)
    (hf : ∀ f ∈ frames, IsZero f) :
    (∀ t ∈ runAhat0 cells st frames, IsZero t) ∧
    (∀ sts ∈ runTraj cells st frames, ∀ p ∈ sts, IsZero p.1 ∧ IsZero p.2) ∧
    (∀ ev ∈ runErrors cells st frames, ∀ q ∈ ev, q = 0) ∧
    ((runErrors cells st frames).length = frames.length ∧
      ∀ ev ∈ runErrors cells st frames, ev.length = cells.length) ∧
    (∀ b : ℕ, lossAggregate layerW timeW
        (List.replicate b (runErrors cells st frames)) =
      List.replicate b [0]) := by
  have hzq := runErrors_zero cells hb frames st hf hst
  refine ⟨runAhat0_zero cells hb frames st hf hst,
    runTraj_zero cells hb frames st hf hst, hzq,
    runErrors_lengths cells frames st hstlen, ?_⟩
  intro b
  have hz : ∀ q ∈ flattenL (timeDistributed (denseLayer layerW 0)
      (runErrors cells st frames)), q = 0 := by
    intro q hq
    unfold flattenL timeDistributed at hq
    obtain ⟨lsub, hlsub, hqin⟩ := List.mem_flatten.mp hq
    obtain ⟨ev, hev, rfl⟩ := List.mem_map.mp hlsub
    have hq2 : q = dot ev layerW + 0 := by
      simpa [denseLayer] using hqin
    rw [hq2, dot_zero_left ev (hzq ev hev) layerW]
    ring
  show (((List.replicate b (runErrors cells st frames)).map
      (timeDistributed (denseLayer layerW 0))).map flattenL).map
      (denseLayer timeW 0) = _
  rw [List.map_replicate, List.map_replicate, List.map_replicate]
  congr 1
  show [dot (flattenL (timeDistributed (denseLayer layerW 0)
    (runErrors cells st frames))) timeW + 0] = [0]
  rw [dot_zero_left _ hz timeW]
  norm_num

/-- Witness for the C4 theorem: the spec's end-to-end L = 1 scenario — one
layer, two all-zero 2x2 frames, all-zero initial state,
`layer_loss_weights = [1]`, `time_loss_weights = [1, 1]`. -/
theorem zero_input_zero_outputs_witness :
    ((∀ c ∈ [cellA], ZeroBiasCell c) ∧
      (∀ p ∈ st0, IsZero p.1 ∧ IsZero p.2) ∧
      st0.length = [cellA].length ∧
      (∀ f ∈ frames0, IsZero f)) ∧
    ((∀ t ∈ runAhat0 [cellA] st0 frames0, IsZero t) ∧
      (∀ sts ∈ runTraj [cellA] st0 frames0, ∀ p ∈ sts,
        IsZero p.1 ∧ IsZero p.2) ∧
      (∀ ev ∈ runErrors [cellA] st0 frames0, ∀ q ∈ ev, q = 0) ∧
      ((runErrors [cellA] st0 frames0).length = frames0.length ∧
        ∀ ev ∈ runErrors [cellA] st0 frames0, ev.length = [cellA].length) ∧
      (∀ b : ℕ, lossAggregate layerW1 timeW1
          (List.replicate b (runErrors [cellA] st0 frames0)) =
        List.replicate b [0])) :=
  ⟨⟨cellA_list_zeroBias, st0_zero, rfl, frames0_zero⟩,
    zero_input_zero_outputs [cellA] st0 frames0 layerW1 timeW1
      cellA_list_zeroBias st0_zero rfl frames0_zero⟩

/-- The first trajectory state of the concrete one-layer run, used by the
non-negativity witness. -/
def traj1 : List (Tensor × Tensor) := (stepCore [cellA] st0 (zeroT 1 2 2)).1

/-- The single (representation, error) pair of `traj1`. -/
def pair1 : Tensor × Tensor := traj1.headD (zeroT 0 0 0, zeroT 0 0 0)

theorem traj1_mem : traj1 ∈ runTraj [cellA] st0 frames0 :=
  List.mem_cons_self _ _

theorem pair1_mem : pair1 ∈ traj1 := by
  have h : traj1 = [pair1] := rfl
  rw [h]
  exact List.mem_cons_self _ _

/-- Witness for the C9 theorem at the first state of a concrete run. -/
theorem error_tensors_nonneg_witness :
    (traj1 ∈ runTraj [cellA] st0 frames0 ∧ pair1 ∈ traj1) ∧
      NonNeg pair1.2 :=
  ⟨⟨traj1_mem, pair1_mem⟩,
    error_tensors_nonneg [cellA] st0 frames0 traj1 traj1_mem pair1 pair1_mem⟩

/-- A sample secondary metric whose name is not the loss name. -/
def metricAcc : Metric Unit :=
  { name := "accuracy", state := [], update1 := fun s _ => s,
    update2 := fun s _ _ => s, result := fun _ => 0 }

/-- A sample loss metric holding one accumulated value. -/
def metricLoss : Metric Unit :=
  { name := "loss", state := [5], update1 := fun s v => v :: s,
    update2 := fun s _ _ => s, result := fun s => s.headD 0 }

/-- A sample model whose metric set contains a non-loss metric. -/
def model7 : ModelState Unit Unit Unit :=
  { θ := (), layer_loss_weights := [1], time_loss_weights := [1, 1],
    forward := fun _ _ _ => [], lossFn := fun _ _ => 0,
    gradFn := fun _ p => p, optApply := fun p _ => p,
    metrics := [metricAcc] }

/-- A sample model whose only metric is the loss metric. -/
def model10 : ModelState Unit Unit Unit :=
  { θ := (), layer_loss_weights := [1], time_loss_weights := [1, 1],
    forward := fun _ _ _ => [], lossFn := fun _ _ => 0,
    gradFn := fun _ p => p, optApply := fun p _ => p,
    metrics := [metricLoss] }

/-- The result mapping `testStep` produces on `model10`. -/
def res10 : List (String × ℚ) := [(lossMetricName, 5)]

/-- C7: whenever the metric set contains a metric not named `"loss"`, the
evaluation step fails with a name-resolution error on the undefined name
`y` (instead of updating that metric with `target_val` and
`prediction_error_val`). -/
theorem testStep_raises_nameError {P ι τ : Type} (m : ModelState P ι τ)
    (d : ι × τ) (h : ∃ mt ∈ m.metrics, mt.name ≠ lossMetricName) :
    testStep m d = Except.error (PyErr.nameError yName) := by
  rw [testStep_eq, testMetricLoop_error m.metrics h]
  rfl

/-- Witness for the C7 theorem on a concrete model with an accuracy
metric. -/
theorem testStep_raises_nameError_witness :
    (∃ mt ∈ model7.metrics, mt.name ≠ lossMetricName) ∧
      testStep model7 ((), ()) = Except.error (PyErr.nameError yName) :=
  ⟨⟨metricAcc, List.mem_singleton.mpr rfl, by decide⟩,
    testStep_raises_nameError model7 ((), ())
      ⟨metricAcc, List.mem_singleton.mpr rfl, by decide⟩⟩

/-- C8: the evaluation step computes the same forward pass and loss as the
training step, mutates no trainable parameter (and no loss weight), and —
when it returns — its metric mapping has the same keys as the training
step's. -/
theorem testStep_no_param_mutation {P ι τ : Type} (m : ModelState P ι τ)
    (d : ι × τ) (m2 : ModelState P ι τ) (res : List (String × ℚ))
    (h : testStep m d = Except.ok (m2, res)) :
    testStepLoss m d = trainStepLoss m d ∧ m2.θ = m.θ ∧
      m2.layer_loss_weights = m.layer_loss_weights ∧
      m2.time_loss_weights = m.time_loss_weights ∧
      res.map Prod.fst = (trainStep m d).2.map Prod.fst := by
  rw [testStep_eq] at h
  cases hloop : testMetricLoop m.metrics with
  | error e =>
      rw [hloop, exbind_error] at h
      exact Except.noConfusion h
  | ok ms =>
      rw [hloop, exbind_ok] at h
      have hms : ms = m.metrics := testMetricLoop_ok m.metrics ms hloop
      have hpair := Except.ok.inj h
      have hm2 : m2 = { m with metrics := ms } :=
        (congrArg Prod.fst hpair).symm
      have hres : res = ms.map fun mt => (mt.name, mt.result mt.state) :=
        (congrArg Prod.snd hpair).symm
      subst hms
      refine ⟨rfl, ?_, ?_, ?_, ?_⟩
      · rw [hm2]
      · rw [hm2]
      · rw [hm2]
      · rw [hres, trainStep_keys, List.map_map]
        apply List.map_congr_left
        intro mt _
        rfl

/-- Witness for the C8 theorem on a concrete model whose only metric is the
loss metric. -/
theorem testStep_no_param_mutation_witness :
    testStep model10 ((), ()) = Except.ok (model10, res10) ∧
      (testStepLoss model10 ((), ()) = trainStepLoss model10 ((), ()) ∧
        model10.θ = model10.θ ∧
        model10.layer_loss_weights = model10.layer_loss_weights ∧
        model10.time_loss_weights = model10.time_loss_weights ∧
        res10.map Prod.fst =
          (trainStep model10 ((), ())).2.map Prod.fst) :=
  ⟨rfl, testStep_no_param_mutation model10 ((), ()) model10 res10 rfl⟩

/-- C10: on every evaluation step that returns, no metric state changed (in
particular the loss metric was never updated), the returned mapping is
computed from the metric states held before the call, and the value of
`compute_loss` is discarded — replacing the loss function changes neither
the metric states nor the returned mapping. -/
theorem testStep_loss_metric_untouched {P ι τ : Type}
    (m : ModelState P ι τ) (d : ι × τ) (m2 : ModelState P ι τ)
    (res : List (String × ℚ))
    (h : testStep m d = Except.ok (m2, res)) :
    m2.metrics = m.metrics ∧
      res = m.metrics.map (fun mt => (mt.name, mt.result mt.state)) ∧
      ∀ g : τ → List (List ℚ) → ℚ,
        Except.map
            (fun pr : ModelState P ι τ × List (String × ℚ) =>
              (pr.1.metrics, pr.2))
            (testStep { m with lossFn := g } d) =
          Except.map
            (fun pr : ModelState P ι τ × List (String × ℚ) =>
              (pr.1.metrics, pr.2))
            (testStep m d) := by
  rw [testStep_eq] at h
  cases hloop : testMetricLoop m.metrics with
  | error e =>
      rw [hloop, exbind_error] at h
      exact Except.noConfusion h
  | ok ms =>
      rw [hloop, exbind_ok] at h
      have hms : ms = m.metrics := testMetricLoop_ok m.metrics ms hloop
      have hpair := Except.ok.inj h
      have hm2 : m2 = { m with metrics := ms } :=
        (congrArg Prod.fst hpair).symm
      have hres : res = ms.map fun mt => (mt.name, mt.result mt.state) :=
        (congrArg Prod.snd hpair).symm
      subst hms
      refine ⟨?_, ?_, ?_⟩
      · rw [hm2]
      · rw [hres]
      · intro g
        have e1 : testStep { m with lossFn := g } d =
            (testMetricLoop m.metrics).bind fun ms2 =>
              Except.ok ({ m with lossFn := g, metrics := ms2 },
                ms2.map fun mt => (mt.name, mt.result mt.state)) := rfl
        rw [e1, testStep_eq, hloop]
        rfl

/-- Witness for the C10 theorem on a concrete model whose only metric is
the loss metric holding state `[5]`. -/
theorem testStep_loss_metric_untouched_witness :
    testStep model10 ((), ()) = Except.ok (model10, res10) ∧
      (model10.metrics = model10.metrics ∧
        res10 = model10.metrics.map
          (fun mt => (mt.name, mt.result mt.state)) ∧
        ∀ g : Unit → List (List ℚ) → ℚ,
          Except.map
              (fun pr : ModelState Unit Unit Unit × List (String × ℚ) =>
                (pr.1.metrics, pr.2))
              (testStep { model10 with lossFn := g } ((), ())) =
            Except.map
              (fun pr : ModelState Unit Unit Unit × List (String × ℚ) =>
                (pr.1.metrics, pr.2))
              (testStep model10 ((), ()))) :=
  ⟨rfl, testStep_loss_metric_untouched model10 ((), ()) model10 res10 rfl⟩

end PredNetTF
